import Mathlib

/-!
Verification development for the LFJ-MM-YIELDING-FARMING liquidity rebalancer.

Shallow embedding of the position store (`db/database.py`), the pool /
reconciliation logic (`contracts/pool.py`), and the rebalance decision and
executor logic (`auto_rebalance.py`).

Modelling conventions:
* Python `float` amounts are embedded as exact rationals (`ℚ`); the claims
  under study are about comparisons and control flow, not float rounding.
* Bin ids are signed integers (`ℤ`), raw on-chain LP balances are `ℕ`
  (uint256 `balanceOf` results).
* On-chain reads and transaction outcomes are supplied by an environment
  record `Env`: each field is the value the corresponding RPC call returns
  during the operation being modelled.  Reads are total (the per-bin
  `try/except` in the source only matters when a read throws, which is the
  failure mode outside the claims settled here).
* SQLite row ids are modelled by an explicit `nextId` counter
  (`AUTOINCREMENT`); timestamps and transaction-hash strings are opaque
  values with no bearing on any claim and are omitted from the records.
-/

namespace LfjMm

/-- Pool address constant from `utils/config.py` (checksum casing immaterial). -/
def POOL_ADDRESS : String := "0x856b38bf1e2e367f747dd4d3951dda8a35f1bf60"

/-- `DEFAULT_BIN_SCAN_RANGE` from `utils/config.py` line 35:
"Scan 10 bins before/after active ID". -/
def DEFAULT_BIN_SCAN_RANGE : ℕ := 10

/-- `DISTANCE_THRESHOLD` from `auto_rebalance.py` line 16. -/
def DISTANCE_THRESHOLD : ℕ := 2

/-- `AVAX_RESERVE = 0.000001` from `auto_rebalance.py` line 192. -/
def AVAX_RESERVE : ℚ := 1 / 1000000

/-- `BTC_RESERVE = 0.0000000001` from `auto_rebalance.py` line 193. -/
def BTC_RESERVE : ℚ := 1 / 10000000000

/-- A row of the `positions` table (`db/database.py`, `_create_tables`). -/
structure PosRecord where
  id : ℕ
  wallet : String
  binId : ℤ
  amount : ℚ
  tokenX : String
  tokenY : String
  pool : String
  active : Bool
  deriving DecidableEq

/-- A row of the `operations` table (`db/database.py`, `_create_tables`).
Transaction hashes and timestamps are omitted (opaque, claim-irrelevant). -/
structure OpRecord where
  opType : String
  wallet : String
  binId : Option ℤ
  amountX : Option ℚ
  amountY : Option ℚ
  tokenX : Option String
  tokenY : Option String
  pool : String
  notes : Option String
  deriving DecidableEq

/-- The SQLite database state of `LiquidityDatabase`. -/
structure DB where
  positions : List PosRecord
  nextId : ℕ
  operations : List OpRecord
  deriving DecidableEq

/-- `LiquidityDatabase.add_position`: unconditional INSERT of an active row,
returning the fresh rowid. -/
def add_position (db : DB) (w : String) (binId : ℤ) (amount : ℚ)
    (tx ty : String) (pool : String) : DB × ℕ :=
  ({ positions := db.positions ++
      [{ id := db.nextId, wallet := w, binId := binId, amount := amount,
         tokenX := tx, tokenY := ty, pool := pool, active := true }],
     nextId := db.nextId + 1,
     operations := db.operations }, db.nextId)

/-- The per-row effect of the UPDATE statement of `update_position`. -/
def updRow (pid : ℕ) (newAmount : ℚ) (active : Bool) (r : PosRecord) :
    PosRecord :=
  if r.id = pid then { r with amount := newAmount, active := active } else r

/-- `LiquidityDatabase.update_position`: set amount and active flag on the
row(s) with the given id (python default `active=True`). -/
def update_position (db : DB) (pid : ℕ) (newAmount : ℚ)
    (active : Bool := true) : DB :=
  { db with positions := db.positions.map (updRow pid newAmount active) }

/-- `LiquidityDatabase.deactivate_position`: `update_position(id, 0, False)`. -/
def deactivate_position (db : DB) (pid : ℕ) : DB :=
  update_position db pid 0 false

/-- Row predicate of `get_active_positions` (wallet and pool filter, active=1). -/
def activeRowFor (w pool : String) (r : PosRecord) : Bool :=
  r.wallet == w && r.active && r.pool == pool

/-- `LiquidityDatabase.get_active_positions` (pool filter always supplied by
the callers modelled here); rows come back in rowid (insertion) order. -/
def get_active_positions (db : DB) (w pool : String) : List PosRecord :=
  db.positions.filter (activeRowFor w pool)

/-- Row predicate of `get_position_by_bin` (wallet, bin and pool match,
active=1). -/
def rowForBin (w : String) (binId : ℤ) (pool : String) (r : PosRecord) : Bool :=
  r.wallet == w && r.binId == binId && r.pool == pool && r.active

/-- `LiquidityDatabase.get_position_by_bin`: first active row matching
(wallet, bin, pool). -/
def get_position_by_bin (db : DB) (w : String) (binId : ℤ) (pool : String) :
    Option PosRecord :=
  (db.positions.filter (rowForBin w binId pool)).head?

/-- `LiquidityDatabase.record_operation`: append-only INSERT into `operations`. -/
def record_operation (db : DB) (opType w : String) (binId : Option ℤ)
    (ax ay : Option ℚ) (tx ty : Option String) (pool : String)
    (notes : Option String) : DB :=
  { db with operations := db.operations ++
      [{ opType := opType, wallet := w, binId := binId, amountX := ax,
         amountY := ay, tokenX := tx, tokenY := ty, pool := pool,
         notes := notes }] }

/-- Observed on-chain values during one operation: each field is what the
corresponding contract call returns (`contracts/pool.py`). -/
structure Env where
  /-- `getActiveId()` result. -/
  activeId : ℤ
  /-- `pool_contract.balanceOf(wallet, bin)` raw result for the wallet the
  operation acts on. -/
  lpBalanceRaw : ℤ → ℕ
  /-- `getBin(bin)` raw reserves. -/
  binReserves : ℤ → ℕ × ℕ
  /-- `getTokenX()` / `getTokenY()` cached at pool construction. -/
  tokenX : String
  tokenY : String
  /-- whether WAVAX is token X of the pool. -/
  isWavaxX : Bool
  /-- `get_balance(WAVAX_ADDRESS, wallet)` in token units. -/
  avaxBalance : ℚ
  /-- `get_balance(BTCB_ADDRESS, wallet)` in token units. -/
  btcBalance : ℚ
  /-- outcome of `approve_token` for WAVAX (allowance check / approve tx). -/
  approveWavaxOk : Bool
  /-- outcome of `approve_token` for BTC.b. -/
  approveBtcOk : Bool
  /-- outcome of `approve_lp_tokens` (`setApprovalForAll`). -/
  approveLpOk : Bool
  /-- whether the `addLiquidity` router tx for a given bin is mined with
  status 1. -/
  addTxOk : ℤ → Bool
  /-- whether the `removeLiquidity` router tx is mined with status 1. -/
  removeTxOk : Bool

/-- LP balance in token units: `balance / (10 ** 18)`. -/
def lpUnits (env : Env) (b : ℤ) : ℚ :=
  (env.lpBalanceRaw b : ℚ) / 10 ^ 18

/-- The position dict built by `get_all_lp_balances` (both the cache branch
and the scan branch construct exactly these fields). -/
structure Position where
  binId : ℤ
  lpBalance : ℚ
  tokenX : String
  tokenY : String
  reserveX : ℕ
  reserveY : ℕ
  distanceFromActive : ℤ
  deriving DecidableEq

/-- The position dict emitted for bin `b` (fields per `contracts/pool.py`
lines 157-165 and 195-203). -/
def emitOf (env : Env) (b : ℤ) : Position :=
  { binId := b, lpBalance := lpUnits env b, tokenX := env.tokenX,
    tokenY := env.tokenY, reserveX := (env.binReserves b).1,
    reserveY := (env.binReserves b).2,
    distanceFromActive := b - env.activeId }

/-- The update-epsilon `0.000001` from `contracts/pool.py` line 168. -/
def CACHE_EPS : ℚ := 1 / 1000000

/-- One iteration of the cache-verification loop of `get_all_lp_balances`
(`contracts/pool.py` lines 149-175): positive live balance emits a position
and refreshes the stored amount when it drifted by more than the epsilon;
zero balance deactivates the stored row. -/
def cacheStep (env : Env) (st : List Position × DB) (r : PosRecord) :
    List Position × DB :=
  let balance := env.lpBalanceRaw r.binId
  if 0 < balance then
    let db' := if CACHE_EPS < |r.amount - lpUnits env r.binId| then
        update_position st.2 r.id (lpUnits env r.binId) true
      else st.2
    (st.1 ++ [emitOf env r.binId], db')
  else
    (st.1, deactivate_position st.2 r.id)

/-- The database-first verification pass over the stored active positions. -/
def resolveFromCache (env : Env) (recs : List PosRecord) (db : DB) :
    List Position × DB :=
  recs.foldl (cacheStep env) ([], db)

/-- Integer range `[lo, hi]` inclusive (python `range(lo, hi + 1)`). -/
def intRange (lo hi : ℤ) : List ℤ :=
  (List.range (hi + 1 - lo).toNat).map fun i : ℕ => lo + (i : ℤ)

/-- The bin ids enumerated by the fallback scan: `start_bin = max(0,
active_id - scan_range)`, `end_bin = active_id + scan_range`
(`contracts/pool.py` lines 185-188). -/
def scannedBins (activeId : ℤ) (scanRange : ℕ) : List ℤ :=
  intRange (max 0 (activeId - scanRange)) (activeId + scanRange)

/-- One iteration of the scan loop of `get_all_lp_balances`
(`contracts/pool.py` lines 188-215): a positive balance emits a position;
when `use_db_first` is set, an untracked bin is inserted into the store. -/
def scanStep (env : Env) (w : String) (useDbFirst : Bool)
    (st : List Position × DB) (b : ℤ) : List Position × DB :=
  let balance := env.lpBalanceRaw b
  if 0 < balance then
    let db' := if useDbFirst then
        match get_position_by_bin st.2 w b POOL_ADDRESS with
        | some _ => st.2
        | none => (add_position st.2 w b (lpUnits env b)
            env.tokenX env.tokenY POOL_ADDRESS).1
      else st.2
    (st.1 ++ [emitOf env b], db')
  else st

/-- The full bin-range scan of `get_all_lp_balances`. -/
def scanPositions (env : Env) (db : DB) (w : String) (scanRange : ℕ)
    (useDbFirst : Bool) : List Position × DB :=
  (scannedBins env.activeId scanRange).foldl (scanStep env w useDbFirst) ([], db)

/-- `LiquidityPool.get_all_lp_balances` (`contracts/pool.py` lines 126-217):
database-first verification when requested and the store has active rows,
returning early when that pass emitted anything, otherwise the windowed
blockchain scan. -/
def get_all_lp_balances (env : Env) (db : DB) (w : String) (scanRange : ℕ)
    (useDbFirst : Bool) : List Position × DB :=
  if useDbFirst then
    let recs := get_active_positions db w POOL_ADDRESS
    if recs = [] then scanPositions env db w scanRange useDbFirst
    else
      let cached := resolveFromCache env recs db
      if cached.1 = [] then scanPositions env cached.2 w scanRange useDbFirst
      else cached
  else scanPositions env db w scanRange useDbFirst

/-- `get_optimal_bin` from `auto_rebalance.py` lines 32-47 (the `pool`
parameter of the source is unused and dropped). -/
def get_optimal_bin (activeId : ℤ) (tokenType : String) : ℤ :=
  if tokenType = "WAVAX" then activeId + 1 else activeId - 1

/-- The f-string reason of `auto_rebalance.py` line 70. -/
def breachReason (binId : ℤ) (distance : ℕ) (activeId : ℤ) : String :=
  "Position in bin " ++ toString binId ++ " is " ++ toString distance ++
    " bins away from active bin " ++ toString activeId

/-- The scanning loop of `should_rebalance` (`auto_rebalance.py` lines 64-72). -/
def should_rebalance_loop (activeId : ℤ) : List Position → Bool × String
  | [] => (false, "All positions are within threshold distance")
  | p :: rest =>
    let distance := (p.binId - activeId).natAbs
    if DISTANCE_THRESHOLD ≤ distance then
      (true, breachReason p.binId distance activeId)
    else should_rebalance_loop activeId rest

/-- `should_rebalance` from `auto_rebalance.py` lines 49-72 (the unused
`pool` parameter is dropped). -/
def should_rebalance (positions : List Position) (activeId : ℤ) :
    Bool × String :=
  if positions = [] then (false, "No positions found")
  else should_rebalance_loop activeId positions

/-- The position upsert performed after a successful add (`contracts/pool.py`
lines 402-413): refresh the active row found by `get_position_by_bin` with
the post-transaction LP balance, or insert a fresh row. -/
def upsertPosition (env : Env) (db1 : DB) (w : String) (binId : ℤ) : DB :=
  match get_position_by_bin db1 w binId POOL_ADDRESS with
  | some p => update_position db1 p.id (lpUnits env binId) true
  | none => (add_position db1 w binId (lpUnits env binId) env.tokenX
      env.tokenY POOL_ADDRESS).1

/-- `LiquidityPool.add_liquidity` (`contracts/pool.py` lines 309-423):
approvals, the router tx, and on success the operation record plus the
position upsert keyed by `get_position_by_bin`.  Returns the success flag
and the resulting store. -/
def add_liquidity (env : Env) (db : DB) (w : String) (binId : ℤ)
    (avaxAmount btcAmount : ℚ) : Bool × DB :=
  if 0 < avaxAmount ∧ env.approveWavaxOk = false then (false, db)
  else if 0 < btcAmount ∧ env.approveBtcOk = false then (false, db)
  else if env.addTxOk binId then
    (true, upsertPosition env
      (record_operation db "add" w (some binId)
        (some (if env.isWavaxX then avaxAmount else btcAmount))
        (some (if env.isWavaxX then btcAmount else avaxAmount))
        (some env.tokenX) (some env.tokenY) POOL_ADDRESS none)
      w binId)
  else (false, db)

/-- The position bookkeeping after a successful single-bin removal
(`contracts/pool.py` lines 502-511): deactivate the row when the
post-transaction balance is zero, else refresh its amount. -/
def removeUpdate (db1 : DB) (w : String) (binId : ℤ) (postBalance : ℚ) :
    DB :=
  match get_position_by_bin db1 w binId POOL_ADDRESS with
  | some p =>
    if postBalance ≤ 0 then deactivate_position db1 p.id
    else update_position db1 p.id postBalance true
  | none => db1

/-- `LiquidityPool.remove_liquidity` (`contracts/pool.py` lines 425-521):
single-bin removal; `amount ≤ 0` means remove the full live balance and
fails when that balance is zero.  On success the position row is refreshed
or deactivated from the post-transaction balance read (`postBalance`). -/
def remove_liquidity (env : Env) (db : DB) (w : String) (binId : ℤ)
    (amount : ℚ) (postBalance : ℚ) : Bool × DB :=
  if amount ≤ 0 ∧ env.lpBalanceRaw binId = 0 then (false, db)
  else if env.approveLpOk = false then (false, db)
  else if env.removeTxOk then
    (true, removeUpdate
      (record_operation db "remove" w (some binId) none none none none
        POOL_ADDRESS (some ("Removed " ++ toString
          (if amount ≤ 0 then lpUnits env binId else amount) ++
          " LP tokens")))
      w binId postBalance)
  else (false, db)

/-- The post-success bookkeeping loop of `remove_all_liquidity`
(`contracts/pool.py` lines 604-608): deactivate the store row of every
removed position. -/
def deactivateAll (w : String) (db : DB) (positions : List Position) : DB :=
  positions.foldl (fun acc p =>
    match get_position_by_bin acc w p.binId POOL_ADDRESS with
    | some q => deactivate_position acc q.id
    | none => acc) db

/-- `LiquidityPool.remove_all_liquidity` (`contracts/pool.py` lines
523-618): resolve positions (database-first), abort when none exist or the
LP approval or the aggregated `removeLiquidity` transaction fails, and on
success record the operation and deactivate every removed row. -/
def remove_all_liquidity (env : Env) (db : DB) (w : String)
    (scanRange : ℕ) : Bool × DB :=
  let resolved := get_all_lp_balances env db w scanRange true
  if resolved.1 = [] then (false, resolved.2)
  else if env.approveLpOk = false then (false, resolved.2)
  else if env.removeTxOk then
    let db1 := record_operation resolved.2 "remove_all" w none none none
      none none POOL_ADDRESS
      (some ("Removed liquidity from bins: " ++
        String.intercalate ", " (resolved.1.map fun p => toString p.binId)))
    (true, deactivateAll w db1 resolved.1)
  else (false, resolved.2)

/-- The redeposit phase of `rebalance_liquidity` (`auto_rebalance.py` lines
183-242): budget both token balances minus the fixed reserves, then submit
up to two single-sided adds gated by the dust thresholds.  `ea` and `eb`
are the environments observed by the WAVAX-side and BTC.b-side reads.
Returns (success, store, number of `add_liquidity` calls attempted). -/
def rebalanceAddPhase (ea eb : Env) (db : DB) (w : String) (activeId : ℤ) :
    Bool × DB × ℕ :=
  let avaxToAdd := max 0 (ea.avaxBalance - AVAX_RESERVE)
  let btcToAdd := max 0 (eb.btcBalance - BTC_RESERVE)
  let wavaxBin := get_optimal_bin activeId "WAVAX"
  let btcBin := get_optimal_bin activeId "BTC.b"
  let stepA : ℕ × ℕ × DB :=
    if 1 / 100 < avaxToAdd then
      let r := add_liquidity ea db w wavaxBin avaxToAdd 0
      (1, if r.1 then 1 else 0, r.2)
    else (0, 0, db)
  let stepB : ℕ × ℕ × DB :=
    if 1 / 10000 < btcToAdd then
      let r := add_liquidity eb stepA.2.2 w btcBin 0 btcToAdd
      (1, if r.1 then 1 else 0, r.2)
    else (0, 0, stepA.2.2)
  (0 < stepA.2.1 + stepB.2.1, stepB.2.2, stepA.1 + stepB.1)

/-- `rebalance_liquidity` (`auto_rebalance.py` lines 158-242): phase 1
removes everything via `remove_all_liquidity` with
`scan_range=DEFAULT_BIN_SCAN_RANGE` and aborts the rebalance on failure;
otherwise the redeposit phase runs.  `er` is the environment observed
during the removal phase, `ea`/`eb` during the two adds.  The last
component counts the `add_liquidity` calls attempted. -/
def rebalance_liquidity (er ea eb : Env) (db : DB) (w : String)
    (activeId : ℤ) : Bool × DB × ℕ :=
  let s1 := remove_all_liquidity er db w DEFAULT_BIN_SCAN_RANGE
  if s1.1 then rebalanceAddPhase ea eb s1.2 w activeId
  else (false, s1.2, 0)

/-! ### Well-formedness of the store

SQLite `AUTOINCREMENT` rowids are distinct and below the next id; every
store reachable by the program satisfies this. -/

/-- Rowids in the positions table are pairwise distinct and below `nextId`. -/
def WF (db : DB) : Prop :=
  (db.positions.map fun r => r.id).Nodup ∧ ∀ r ∈ db.positions, r.id < db.nextId

instance (db : DB) : Decidable (WF db) := by unfold WF; infer_instance

/-! ### Decision engine: C1, C7, C10 -/

/-- The breach test of the `should_rebalance` loop, as a Boolean predicate
over a position. -/
def breachHit (activeId : ℤ) (p : Position) : Bool :=
  DISTANCE_THRESHOLD ≤ (p.binId - activeId).natAbs

lemma should_rebalance_loop_fst_iff (A : ℤ) (P : List Position) :
    (should_rebalance_loop A P).1 = true ↔
      ∃ p ∈ P, (2 : ℤ) ≤ |p.binId - A| := by
  induction P with
  | nil => simp [should_rebalance_loop]
  | cons p rest ih =>
    by_cases h : DISTANCE_THRESHOLD ≤ (p.binId - A).natAbs
    · have h2 : (2 : ℤ) ≤ |p.binId - A| := by
        rw [← Int.natCast_natAbs]
        exact_mod_cast h
      simp only [should_rebalance_loop, h, if_true]
      simp only [true_iff]
      exact ⟨p, List.mem_cons_self p rest, h2⟩
    · have h2 : ¬ (2 : ℤ) ≤ |p.binId - A| := by
        rw [← Int.natCast_natAbs]
        intro hc
        exact h (by exact_mod_cast hc)
      simp only [should_rebalance_loop, h, if_false, ih, List.mem_cons]
      constructor
      · rintro ⟨q, hq, hq2⟩; exact ⟨q, Or.inr hq, hq2⟩
      · rintro ⟨q, hq | hq, hq2⟩
        · exact absurd (hq ▸ hq2) h2
        · exact ⟨q, hq, hq2⟩

/-- C1: `should_rebalance(P, A)` answers true exactly when some position of
`P` is at distance `≥ 2` (the `DISTANCE_THRESHOLD`) from the active bin,
and answers false on an empty position list. -/
theorem should_rebalance_iff_breach (P : List Position) (A : ℤ) :
    DISTANCE_THRESHOLD = 2 ∧
    ((should_rebalance P A).1 = true ↔ ∃ p ∈ P, (2 : ℤ) ≤ |p.binId - A|) ∧
    (P = [] → (should_rebalance P A).1 = false) := by
  refine ⟨rfl, ?_, ?_⟩
  · cases P with
    | nil => simp [should_rebalance]
    | cons p rest =>
      rw [should_rebalance, if_neg (by simp)]
      exact should_rebalance_loop_fst_iff A (p :: rest)
  · rintro rfl; rfl

/-- Spec scenario position: bin 100, 5.0 LP tokens. -/
def examplePos : Position :=
  { binId := 100, lpBalance := 5, tokenX := "X", tokenY := "Y",
    reserveX := 0, reserveY := 0, distanceFromActive := -3 }

/-- Witness for C1: on the empty position list the engine answers false,
and on the spec scenario (position in bin 100, active bin 103) it answers
true. -/
theorem should_rebalance_iff_breach_witness :
    (should_rebalance [] 103).1 = false ∧
      (should_rebalance [examplePos] 103).1 = true :=
  ⟨(should_rebalance_iff_breach [] 103).2.2 rfl,
   (should_rebalance_iff_breach [examplePos] 103).2.1.mpr
     ⟨examplePos, List.mem_singleton_self _, by decide⟩⟩

lemma should_rebalance_loop_first (A : ℤ) (P : List Position) (p : Position)
    (h : P.find? (breachHit A) = some p) :
    should_rebalance_loop A P =
      (true, breachReason p.binId (p.binId - A).natAbs A) := by
  induction P with
  | nil => simp [List.find?] at h
  | cons q rest ih =>
    by_cases hq : breachHit A q = true
    · rw [List.find?_cons_of_pos _ hq] at h
      injection h with h
      subst h
      have hq' : DISTANCE_THRESHOLD ≤ (q.binId - A).natAbs :=
        of_decide_eq_true hq
      simp [should_rebalance_loop, hq']
    · rw [List.find?_cons_of_neg _ hq] at h
      have hq' : ¬ DISTANCE_THRESHOLD ≤ (q.binId - A).natAbs := by
        intro hc; exact hq (decide_eq_true hc)
      simp only [should_rebalance_loop, hq', if_false]
      exact ih h

/-- C7: when some position breaches the threshold, `should_rebalance`
reports the first breach in supply order: it returns true together with
the reason string built from that position's bin and distance, and the
reason textually contains both numbers. -/
theorem should_rebalance_first_breach (P : List Position) (A : ℤ)
    (p : Position) (h : P.find? (breachHit A) = some p) :
    should_rebalance P A =
      (true, breachReason p.binId (p.binId - A).natAbs A) ∧
    (∃ s t, breachReason p.binId (p.binId - A).natAbs A =
        s ++ toString p.binId ++ t) ∧
    (∃ s t, breachReason p.binId (p.binId - A).natAbs A =
        s ++ toString (p.binId - A).natAbs ++ t) := by
  refine ⟨?_, ?_, ?_⟩
  · have hne : P ≠ [] := by
      rintro rfl; simp [List.find?] at h
    rw [should_rebalance, if_neg hne]
    exact should_rebalance_loop_first A P p h
  · exact ⟨"Position in bin ",
      " is " ++ toString (p.binId - A).natAbs ++
        " bins away from active bin " ++ toString A,
      by simp only [breachReason, String.append_assoc]⟩
  · exact ⟨"Position in bin " ++ toString p.binId ++ " is ",
      " bins away from active bin " ++ toString A,
      by simp only [breachReason, String.append_assoc]⟩

/-- Witness for C7: positions = [bin 100], active bin 103 gives true with
the reason naming bin 100 and distance 3. -/
theorem should_rebalance_first_breach_witness :
    [examplePos].find? (breachHit 103) = some examplePos ∧
    should_rebalance [examplePos] 103 =
      (true, breachReason examplePos.binId
        (examplePos.binId - 103).natAbs 103) :=
  ⟨by decide, (should_rebalance_first_breach [examplePos] 103 examplePos
    (by decide)).1⟩

/-- C10: `get_optimal_bin` is a pure function of the active bin and the
token side: `A + 1` for WAVAX, `A - 1` for BTC.b. -/
theorem get_optimal_bin_spec (A : ℤ) :
    get_optimal_bin A "WAVAX" = A + 1 ∧ get_optimal_bin A "BTC.b" = A - 1 :=
  ⟨if_pos rfl, if_neg (by decide)⟩

/-! ### Scan window: C4, C5 -/

lemma intRange_mem (lo hi b : ℤ) : b ∈ intRange lo hi ↔ lo ≤ b ∧ b ≤ hi := by
  simp only [intRange, List.mem_map, List.mem_range]
  constructor
  · rintro ⟨i, hi', rfl⟩
    omega
  · rintro ⟨h1, h2⟩
    exact ⟨(b - lo).toNat, by omega, by omega⟩

/-- C5 counterexample: with active bin 0 and half-width 1, bin `-1` lies in
the symmetric window `[A - w, A + w]` but is never scanned (the scan starts
at `max(0, A - w)`). -/
theorem scan_window_counterexample :
    ((0 : ℤ) - 1 ≤ -1 ∧ (-1 : ℤ) ≤ 0 + 1) ∧
      (-1 : ℤ) ∉ scannedBins 0 1 := by decide

/-- C5 amended: the full scan issues a balance check exactly for the bins
of the clamped window `[max(0, A - w), A + w]`. -/
theorem scanned_bins_spec (A : ℤ) (w : ℕ) (b : ℤ) :
    b ∈ scannedBins A w ↔ max 0 (A - w) ≤ b ∧ b ≤ A + w :=
  intRange_mem _ _ b

/-- Witness for C5 amended: bin 5 is inside the clamped window of active
bin 5, half-width 1, hence scanned. -/
theorem scanned_bins_spec_witness : (5 : ℤ) ∈ scannedBins 5 1 :=
  (scanned_bins_spec 5 1 5).mpr (by decide)

/-- C4 counterexample: the half-width used by the removal path of a
rebalance is `DEFAULT_BIN_SCAN_RANGE`, which is not in the range 50 to
1000. -/
theorem rebalance_scan_range_counterexample :
    ¬ (50 ≤ DEFAULT_BIN_SCAN_RANGE ∧ DEFAULT_BIN_SCAN_RANGE ≤ 1000) := by
  decide

/-- C4 amended: the phase-1 removal of `rebalance_liquidity` runs
`remove_all_liquidity` with half-width `DEFAULT_BIN_SCAN_RANGE = 10`. -/
theorem rebalance_scan_range_spec :
    DEFAULT_BIN_SCAN_RANGE = 10 ∧
    ∀ (er ea eb : Env) (db : DB) (w : String) (A : ℤ),
      rebalance_liquidity er ea eb db w A =
        (let s1 := remove_all_liquidity er db w 10
         if s1.1 then rebalanceAddPhase ea eb s1.2 w A
         else (false, s1.2, 0)) :=
  ⟨rfl, fun _ _ _ _ _ _ => rfl⟩

/-! ### Executor abort path: C2 -/

/-- C2 amended: when the phase-1 aggregated removal fails (no positions, or
the approval or withdrawal transaction fails), the rebalance returns false
with zero `add_liquidity` calls attempted, and its resulting store is
exactly the store left by the phase-1 attempt itself.  (The phase-1
position resolution may already have mutated the store: see the
counterexample.) -/
theorem rebalance_abort_on_remove_failure (er ea eb : Env) (db : DB)
    (w : String) (A : ℤ)
    (h : (remove_all_liquidity er db w DEFAULT_BIN_SCAN_RANGE).1 = false) :
    rebalance_liquidity er ea eb db w A =
      (false, (remove_all_liquidity er db w DEFAULT_BIN_SCAN_RANGE).2, 0) := by
  simp only [rebalance_liquidity, h, Bool.false_eq_true, if_false]

/-- Chain environment with no live LP balances anywhere (so phase-1
resolution finds nothing to withdraw). -/
def envNoBalances : Env :=
  { activeId := 5, lpBalanceRaw := fun _ => 0, binReserves := fun _ => (0, 0),
    tokenX := "TX", tokenY := "TY", isWavaxX := true, avaxBalance := 0,
    btcBalance := 0, approveWavaxOk := true, approveBtcOk := true,
    approveLpOk := true, addTxOk := fun _ => true, removeTxOk := true }

/-- Store holding one stale active row (bin 5) whose live balance is zero:
rowid 0, wallet "W", bin 5, amount 1, pool `POOL_ADDRESS`, active. -/
def dbStale : DB :=
  { positions := [⟨0, "W", 5, 1, "TX", "TY", POOL_ADDRESS, true⟩],
    nextId := 1, operations := [] }

/-- Witness for C2 amended: on `envNoBalances`/`dbStale` phase 1 fails and
the rebalance returns false with zero add calls. -/
theorem rebalance_abort_on_remove_failure_witness :
    (remove_all_liquidity envNoBalances dbStale "W"
      DEFAULT_BIN_SCAN_RANGE).1 = false ∧
    rebalance_liquidity envNoBalances envNoBalances envNoBalances dbStale
      "W" 5 = (false, (remove_all_liquidity envNoBalances dbStale "W"
        DEFAULT_BIN_SCAN_RANGE).2, 0) :=
  ⟨by decide, rebalance_abort_on_remove_failure envNoBalances envNoBalances
    envNoBalances dbStale "W" 5 (by decide)⟩

/-- C2 counterexample: a rebalance whose phase-1 removal fails can still
change the Position Store — here the stale bin-5 row is deactivated by the
phase-1 resolution before the abort, so the store differs from its initial
state. -/
theorem rebalance_abort_store_changed :
    (remove_all_liquidity envNoBalances dbStale "W"
      DEFAULT_BIN_SCAN_RANGE).1 = false ∧
    (rebalance_liquidity envNoBalances envNoBalances envNoBalances dbStale
      "W" 5).2.1 ≠ dbStale := by decide

/-! ### Scan upsert: C6 -/

lemma get_position_by_bin_none_iff (db : DB) (w : String) (b : ℤ)
    (pool : String) :
    get_position_by_bin db w b pool = none ↔
      ∀ r ∈ db.positions, ¬ rowForBin w b pool r = true := by
  rw [get_position_by_bin, List.head?_eq_none_iff, List.filter_eq_nil_iff]

lemma get_position_by_bin_isSome_append (db : DB) (w : String) (b : ℤ)
    (pool : String) (rs : List PosRecord)
    (h : (get_position_by_bin db w b pool).isSome) :
    ((db.positions ++ rs).filter (rowForBin w b pool)).head?.isSome := by
  rw [List.filter_append, List.head?_append]
  rw [get_position_by_bin] at h
  cases hh : (db.positions.filter (rowForBin w b pool)).head? with
  | none => rw [hh] at h; simp at h
  | some p => simp [hh, Option.or]

lemma scanStep_preserves_tracked (env : Env) (w w' : String) (u : Bool)
    (st : List Position × DB) (b' b : ℤ)
    (h : (get_position_by_bin st.2 w b POOL_ADDRESS).isSome) :
    (get_position_by_bin (scanStep env w' u st b').2 w b
      POOL_ADDRESS).isSome := by
  rw [scanStep]
  by_cases hb : 0 < env.lpBalanceRaw b'
  · simp only [hb, if_true]
    by_cases hu : u
    · simp only [hu, if_true]
      cases hg : get_position_by_bin st.2 w' b' POOL_ADDRESS with
      | some p => simpa [hg] using h
      | none =>
        simp only [hg]
        exact get_position_by_bin_isSome_append st.2 w b POOL_ADDRESS _ h
    · simpa [hu] using h
  · simpa [hb] using h

lemma scanFold_preserves_tracked (env : Env) (w w' : String) (u : Bool)
    (b : ℤ) :
    ∀ (bins : List ℤ) (st : List Position × DB),
      (get_position_by_bin st.2 w b POOL_ADDRESS).isSome →
      (get_position_by_bin (bins.foldl (scanStep env w' u) st).2 w b
        POOL_ADDRESS).isSome := by
  intro bins
  induction bins with
  | nil => intro st h; exact h
  | cons b' rest ih =>
    intro st h
    exact ih _ (scanStep_preserves_tracked env w w' u st b' b h)

lemma scanStep_creates_tracked (env : Env) (w : String)
    (st : List Position × DB) (b : ℤ) (hb : 0 < env.lpBalanceRaw b) :
    (get_position_by_bin (scanStep env w true st b).2 w b
      POOL_ADDRESS).isSome := by
  rw [scanStep]
  simp only [hb, if_true]
  cases hg : get_position_by_bin st.2 w b POOL_ADDRESS with
  | some p => simp [hg]
  | none =>
    simp only [hg]
    rw [get_position_by_bin] at hg ⊢
    rw [List.head?_eq_none_iff] at hg
    have hrow : rowForBin w b POOL_ADDRESS
        { id := st.2.nextId, wallet := w, binId := b,
          amount := lpUnits env b, tokenX := env.tokenX,
          tokenY := env.tokenY, pool := POOL_ADDRESS, active := true } = true := by
      simp [rowForBin]
    simp [add_position, List.filter_append, hg, hrow]

/-- C6 amended: in every cache-preferred full scan (`use_db_first = true`),
every scanned bin with a positive live LP balance and no active store
record beforehand has an active store record once the scan completes (the
scan upserts it). -/
theorem scan_upsert_tracks (env : Env) (db : DB) (w : String) (sr : ℕ)
    (b : ℤ) (hmem : b ∈ scannedBins env.activeId sr)
    (hpos : 0 < env.lpBalanceRaw b)
    (hnone : get_position_by_bin db w b POOL_ADDRESS = none) :
    (get_position_by_bin (scanPositions env db w sr true).2 w b
      POOL_ADDRESS).isSome := by
  obtain ⟨l1, l2, hsplit⟩ := List.append_of_mem hmem
  rw [scanPositions, hsplit, List.foldl_append, List.foldl_cons]
  exact scanFold_preserves_tracked env w w true b l2 _
    (scanStep_creates_tracked env w _ b hpos)

/-- Chain environment holding one unit of raw LP balance at bin 0. -/
def envSeed : Env :=
  { envNoBalances with
    activeId := 0,
    lpBalanceRaw := (fun b => if b = 0 then 1 else 0) }

/-- The empty store. -/
def dbEmpty : DB := { positions := [], nextId := 0, operations := [] }

/-- Witness for C6 amended: scanning with half-width 0 around active bin 0
finds the positive bin 0 and upserts it into the empty store. -/
theorem scan_upsert_tracks_witness :
    ((0 : ℤ) ∈ scannedBins envSeed.activeId 0 ∧
      0 < envSeed.lpBalanceRaw 0 ∧
      get_position_by_bin dbEmpty "W" 0 POOL_ADDRESS = none) ∧
    (get_position_by_bin (scanPositions envSeed dbEmpty "W" 0 true).2 "W" 0
      POOL_ADDRESS).isSome :=
  ⟨⟨by decide, by decide, rfl⟩,
   scan_upsert_tracks envSeed dbEmpty "W" 0 0 (by decide) (by decide) rfl⟩

/-- C6 counterexample: the full scan invoked with `use_db_first = false`
(the "Scan for new positions" menu path) emits a bin with positive balance
but upserts nothing: afterwards the store still has no record for it. -/
theorem scan_no_upsert_counterexample :
    (get_all_lp_balances envSeed dbEmpty "W" 0 false).1 ≠ [] ∧
    get_position_by_bin (get_all_lp_balances envSeed dbEmpty "W" 0 false).2
      "W" 0 POOL_ADDRESS = none := by decide

/-! ### Cache-path characterization: C3 -/

/-- Whether the live LP balance check for a stored row returns a positive
balance. -/
def hasLiveBalance (env : Env) (r : PosRecord) : Bool :=
  0 < env.lpBalanceRaw r.binId

/-- The per-row store effect of the cache-verification pass: positive live
balance refreshes the amount only when it drifted beyond the epsilon; zero
balance deactivates the row. -/
def cacheRowUpdate (env : Env) (row : PosRecord) : PosRecord :=
  if 0 < env.lpBalanceRaw row.binId then
    if CACHE_EPS < |row.amount - lpUnits env row.binId| then
      { row with amount := lpUnits env row.binId, active := true }
    else row
  else { row with amount := 0, active := false }

lemma cacheRowUpdate_id (env : Env) (row : PosRecord) :
    (cacheRowUpdate env row).id = row.id := by
  by_cases h1 : 0 < env.lpBalanceRaw row.binId <;>
    by_cases h2 : CACHE_EPS < |row.amount - lpUnits env row.binId| <;>
    simp [cacheRowUpdate, h1, h2]

lemma cacheRowUpdate_binId (env : Env) (row : PosRecord) :
    (cacheRowUpdate env row).binId = row.binId := by
  by_cases h1 : 0 < env.lpBalanceRaw row.binId <;>
    by_cases h2 : CACHE_EPS < |row.amount - lpUnits env row.binId| <;>
    simp [cacheRowUpdate, h1, h2]

lemma pair_eta {α β : Type} (p : α × β) : p = (p.1, p.2) := rfl

lemma cacheStep_fst (env : Env) (st : List Position × DB) (r : PosRecord) :
    (cacheStep env st r).1 =
      if hasLiveBalance env r then st.1 ++ [emitOf env r.binId] else st.1 := by
  by_cases hb : 0 < env.lpBalanceRaw r.binId <;>
    simp [cacheStep, hasLiveBalance, hb]

lemma cacheStep_nextId (env : Env) (st : List Position × DB) (r : PosRecord) :
    (cacheStep env st r).2.nextId = st.2.nextId := by
  by_cases hb : 0 < env.lpBalanceRaw r.binId <;>
    by_cases hd : CACHE_EPS < |r.amount - lpUnits env r.binId| <;>
    simp [cacheStep, hb, hd, update_position, deactivate_position]

lemma cacheStep_operations (env : Env) (st : List Position × DB)
    (r : PosRecord) :
    (cacheStep env st r).2.operations = st.2.operations := by
  by_cases hb : 0 < env.lpBalanceRaw r.binId <;>
    by_cases hd : CACHE_EPS < |r.amount - lpUnits env r.binId| <;>
    simp [cacheStep, hb, hd, update_position, deactivate_position]

lemma cacheStep_positions (env : Env) (st : List Position × DB)
    (r : PosRecord)
    (hdet : ∀ row ∈ st.2.positions, row.id = r.id → row = r) :
    (cacheStep env st r).2.positions =
      st.2.positions.map
        (fun row => if row.id = r.id then cacheRowUpdate env row else row) := by
  by_cases hb : 0 < env.lpBalanceRaw r.binId
  · by_cases hd : CACHE_EPS < |r.amount - lpUnits env r.binId|
    · simp only [cacheStep, hb, if_true, hd, update_position]
      refine List.map_congr_left fun row hrow => ?_
      by_cases hid : row.id = r.id
      · have := hdet row hrow hid
        subst this
        simp [hid, updRow, cacheRowUpdate, hb, hd]
      · simp [hid, updRow]
    · simp only [cacheStep, hb, if_true, hd, if_false]
      refine ((List.map_id st.2.positions).symm.trans
        (List.map_congr_left fun row hrow => ?_))
      by_cases hid : row.id = r.id
      · have := hdet row hrow hid
        subst this
        simp [hid, cacheRowUpdate, hb, hd]
      · simp [hid]
  · simp only [cacheStep, hb, if_false, deactivate_position, update_position]
    refine List.map_congr_left fun row hrow => ?_
    by_cases hid : row.id = r.id
    · have := hdet row hrow hid
      subst this
      simp [hid, updRow, cacheRowUpdate, hb]
    · simp [hid, updRow]

lemma cache_foldl_fst (env : Env) :
    ∀ (recs : List PosRecord) (ps : List Position) (db : DB),
      (recs.foldl (cacheStep env) (ps, db)).1 =
        ps ++ (recs.filter (hasLiveBalance env)).map
          (fun r => emitOf env r.binId) := by
  intro recs
  induction recs with
  | nil => simp
  | cons r rs ih =>
    intro ps db
    rw [List.foldl_cons, pair_eta (cacheStep env (ps, db) r), ih,
      cacheStep_fst]
    by_cases hb : hasLiveBalance env r = true
    · simp [hb, List.filter_cons, List.append_assoc]
    · simp only [Bool.not_eq_true] at hb
      simp [hb, List.filter_cons]

lemma cache_foldl_nextId (env : Env) :
    ∀ (recs : List PosRecord) (ps : List Position) (db : DB),
      (recs.foldl (cacheStep env) (ps, db)).2.nextId = db.nextId := by
  intro recs
  induction recs with
  | nil => intro ps db; rfl
  | cons r rs ih =>
    intro ps db
    rw [List.foldl_cons, pair_eta (cacheStep env (ps, db) r), ih,
      cacheStep_nextId]

lemma cache_foldl_operations (env : Env) :
    ∀ (recs : List PosRecord) (ps : List Position) (db : DB),
      (recs.foldl (cacheStep env) (ps, db)).2.operations = db.operations := by
  intro recs
  induction recs with
  | nil => intro ps db; rfl
  | cons r rs ih =>
    intro ps db
    rw [List.foldl_cons, pair_eta (cacheStep env (ps, db) r), ih,
      cacheStep_operations]

lemma cache_foldl_positions (env : Env) :
    ∀ (recs : List PosRecord) (ps : List Position) (db : DB),
      ((recs.map fun r => r.id).Nodup) →
      (∀ r ∈ recs, ∀ row ∈ db.positions, row.id = r.id → row = r) →
      (recs.foldl (cacheStep env) (ps, db)).2.positions =
        db.positions.map (fun row =>
          if row.id ∈ recs.map (fun r => r.id) then cacheRowUpdate env row
          else row) := by
  intro recs
  induction recs with
  | nil => intro ps db _ _; simp
  | cons r rs ih =>
    intro ps db hnd hdet
    have hstep := cacheStep_positions env (ps, db) r
      (hdet r (List.mem_cons_self r rs))
    have hnd2 : (r.id ∉ rs.map fun q => q.id) ∧
        ((rs.map fun q => q.id)).Nodup := by
      simpa only [List.map_cons, List.nodup_cons] using hnd
    have hndr := hnd2.1
    have hdet' : ∀ q ∈ rs, ∀ row ∈ (cacheStep env (ps, db) r).2.positions,
        row.id = q.id → row = q := by
      intro q hq row hrow hid
      rw [hstep] at hrow
      obtain ⟨row0, hrow0, rfl⟩ := List.mem_map.1 hrow
      by_cases h0 : row0.id = r.id
      · exfalso
        rw [if_pos h0, cacheRowUpdate_id] at hid
        have hqm : q.id ∈ rs.map fun x => x.id :=
          List.mem_map.2 ⟨q, hq, rfl⟩
        rw [← hid, h0] at hqm
        exact hndr hqm
      · rw [if_neg h0] at hid ⊢
        exact hdet q (List.mem_cons_of_mem r hq) row0 hrow0 hid
    rw [List.foldl_cons, pair_eta (cacheStep env (ps, db) r),
      ih _ _ hnd2.2 hdet', hstep, List.map_map]
    refine List.map_congr_left fun row hrow => ?_
    by_cases h0 : row.id = r.id
    · have hnotin : row.id ∉ rs.map fun q => q.id := h0 ▸ hndr
      simp only [Function.comp, if_pos h0, cacheRowUpdate_id]
      rw [if_neg hnotin, if_pos (by simp [h0])]
    · simp only [Function.comp, if_neg h0]
      by_cases h1 : row.id ∈ rs.map fun q => q.id
      · rw [if_pos h1, if_pos (by simp [h1])]
      · rw [if_neg h1, if_neg (by simp [h0, h1])]

lemma wf_id_determines (db : DB) (hwf : WF db) :
    ∀ r ∈ db.positions, ∀ row ∈ db.positions, row.id = r.id → row = r :=
  fun r hr row hrow hid => List.inj_on_of_nodup_map hwf.1 hrow hr hid

lemma active_ids_nodup (db : DB) (w : String) (hwf : WF db) :
    ((get_active_positions db w POOL_ADDRESS).map fun r => r.id).Nodup :=
  List.Nodup.sublist
    (List.Sublist.map _ (List.filter_sublist db.positions)) hwf.1

lemma active_mem_positions (db : DB) (w : String) (r : PosRecord)
    (hr : r ∈ get_active_positions db w POOL_ADDRESS) : r ∈ db.positions :=
  (List.mem_filter.1 hr).1

lemma cache_resolution_positions (env : Env) (db : DB) (w : String)
    (hwf : WF db) :
    (resolveFromCache env (get_active_positions db w POOL_ADDRESS) db).2.positions =
      db.positions.map (fun row =>
        if activeRowFor w POOL_ADDRESS row then cacheRowUpdate env row
        else row) := by
  rw [resolveFromCache, cache_foldl_positions env _ [] db
    (active_ids_nodup db w hwf)
    (fun r hr row hrow hid =>
      wf_id_determines db hwf r (active_mem_positions db w r hr) row hrow hid)]
  refine List.map_congr_left fun row hrow => ?_
  by_cases hact : activeRowFor w POOL_ADDRESS row = true
  · have hm : row.id ∈ (get_active_positions db w POOL_ADDRESS).map
        (fun r => r.id) :=
      List.mem_map.2 ⟨row, List.mem_filter.2 ⟨hrow, hact⟩, rfl⟩
    rw [if_pos hm, if_pos hact]
  · rw [if_neg ?_, if_neg hact]
    intro hmem
    obtain ⟨q, hq, hqid⟩ := List.mem_map.1 hmem
    have : row = q := wf_id_determines db hwf q
      (active_mem_positions db w q hq) row hrow hqid.symm
    exact hact (this ▸ (List.mem_filter.1 hq).2)

/-- C3: the cache-preferred verification pass emits, in stored order,
exactly the stored active positions with positive live balance, each
carrying the live balance, the live reserve snapshot and distance
`bin − activeBin`; its only store effect is the per-row `cacheRowUpdate`
(amount refresh beyond the epsilon, deactivation on zero balance) applied
to the wallet's active rows. -/
theorem cache_resolution_spec (env : Env) (db : DB) (w : String)
    (hwf : WF db) :
    (resolveFromCache env (get_active_positions db w POOL_ADDRESS) db).1 =
      ((get_active_positions db w POOL_ADDRESS).filter
        (hasLiveBalance env)).map (fun r => emitOf env r.binId) ∧
    (resolveFromCache env (get_active_positions db w POOL_ADDRESS) db).2.positions =
      db.positions.map (fun row =>
        if activeRowFor w POOL_ADDRESS row then cacheRowUpdate env row
        else row) ∧
    (resolveFromCache env (get_active_positions db w POOL_ADDRESS) db).2.nextId =
      db.nextId ∧
    (resolveFromCache env (get_active_positions db w POOL_ADDRESS) db).2.operations =
      db.operations :=
  ⟨cache_foldl_fst env _ [] db, cache_resolution_positions env db w hwf,
    cache_foldl_nextId env _ [] db, cache_foldl_operations env _ [] db⟩

/-- Store with one active row at bin 5 whose amount drifted from the live
balance (2 vs 1). -/
def dbDrift : DB :=
  { positions := [⟨0, "W", 5, 2, "TX", "TY", POOL_ADDRESS, true⟩],
    nextId := 1, operations := [] }

/-- Chain environment holding `10^18` raw LP units (1.0 LP) at bin 5. -/
def envBin5 : Env :=
  { envNoBalances with
    lpBalanceRaw := (fun b => if b = 5 then 10 ^ 18 else 0) }

/-- Witness for C3: on a store whose bin-5 amount drifted to 2 while the
live balance is 1, the cache pass emits the live position and refreshes the
stored amount. -/
theorem cache_resolution_spec_witness :
    WF dbDrift ∧
    (resolveFromCache envBin5 (get_active_positions dbDrift "W" POOL_ADDRESS)
        dbDrift).1 =
      ((get_active_positions dbDrift "W" POOL_ADDRESS).filter
        (hasLiveBalance envBin5)).map (fun r => emitOf envBin5 r.binId) :=
  ⟨by decide, (cache_resolution_spec envBin5 dbDrift "W" (by decide)).1⟩

/-! ### Idempotence of position resolution: C8 -/

/-- Whether the raw LP balance at a bin is positive. -/
def binHasBalance (env : Env) (b : ℤ) : Bool :=
  0 < env.lpBalanceRaw b

lemma scanStep_fst (env : Env) (w : String) (u : Bool)
    (st : List Position × DB) (b : ℤ) :
    (scanStep env w u st b).1 =
      if binHasBalance env b then st.1 ++ [emitOf env b] else st.1 := by
  by_cases hb : 0 < env.lpBalanceRaw b <;>
    simp [scanStep, binHasBalance, hb]

lemma scan_foldl_fst (env : Env) (w : String) (u : Bool) :
    ∀ (bins : List ℤ) (ps : List Position) (db : DB),
      (bins.foldl (scanStep env w u) (ps, db)).1 =
        ps ++ (bins.filter (binHasBalance env)).map (emitOf env) := by
  intro bins
  induction bins with
  | nil => simp
  | cons b bs ih =>
    intro ps db
    rw [List.foldl_cons, pair_eta (scanStep env w u (ps, db) b), ih,
      scanStep_fst]
    by_cases hb : binHasBalance env b = true
    · simp [hb, List.filter_cons, List.append_assoc]
    · simp only [Bool.not_eq_true] at hb
      simp [hb, List.filter_cons]

lemma scannedBins_nodup (A : ℤ) (w : ℕ) : (scannedBins A w).Nodup :=
  List.Nodup.map (fun a b hab => by omega) (List.nodup_range _)

lemma gpb_none_of_no_active (db : DB) (w : String)
    (h : get_active_positions db w POOL_ADDRESS = []) (b : ℤ) :
    get_position_by_bin db w b POOL_ADDRESS = none := by
  rw [get_position_by_bin, List.head?_eq_none_iff, List.filter_eq_nil_iff]
  intro r hr hpred
  simp only [rowForBin, Bool.and_eq_true, beq_iff_eq] at hpred
  have hact : activeRowFor w POOL_ADDRESS r = true := by
    simp only [activeRowFor, Bool.and_eq_true, beq_iff_eq]
    exact ⟨⟨hpred.1.1.1, hpred.2⟩, hpred.1.2⟩
  have : r ∈ get_active_positions db w POOL_ADDRESS :=
    List.mem_filter.2 ⟨hr, hact⟩
  rw [h] at this
  exact absurd this (List.not_mem_nil r)

lemma active_after_add (db : DB) (w : String) (b : ℤ) (amt : ℚ)
    (tx ty : String) :
    get_active_positions (add_position db w b amt tx ty POOL_ADDRESS).1 w
      POOL_ADDRESS =
      get_active_positions db w POOL_ADDRESS ++
        [⟨db.nextId, w, b, amt, tx, ty, POOL_ADDRESS, true⟩] := by
  simp only [get_active_positions, add_position, List.filter_append]
  simp [activeRowFor]

lemma gpb_add_other (db : DB) (w' : String) (b' : ℤ) (amt : ℚ)
    (tx ty : String) (w : String) (b : ℤ) (hne : b' ≠ b) :
    get_position_by_bin (add_position db w' b' amt tx ty POOL_ADDRESS).1 w b
      POOL_ADDRESS = get_position_by_bin db w b POOL_ADDRESS := by
  rw [get_position_by_bin, get_position_by_bin, add_position,
    List.filter_append]
  have : rowForBin w b POOL_ADDRESS
      ⟨db.nextId, w', b', amt, tx, ty, POOL_ADDRESS, true⟩ = false := by
    simp [rowForBin, hne]
  simp [this]

lemma scan_foldl_activeIds (env : Env) (w : String) :
    ∀ (bins : List ℤ) (ps : List Position) (db : DB),
      bins.Nodup →
      (∀ b ∈ bins, get_position_by_bin db w b POOL_ADDRESS = none) →
      ((get_active_positions ((bins.foldl (scanStep env w true) (ps, db)).2)
          w POOL_ADDRESS).map fun r => r.binId) =
        ((get_active_positions db w POOL_ADDRESS).map fun r => r.binId) ++
          bins.filter (binHasBalance env) := by
  intro bins
  induction bins with
  | nil => intro ps db _ _; simp
  | cons b bs ih =>
    intro ps db hnd hnone
    have hbnone : get_position_by_bin db w b POOL_ADDRESS = none :=
      hnone b (List.mem_cons_self b bs)
    have hbs : b ∉ bs := (List.nodup_cons.1 hnd).1
    by_cases hb : 0 < env.lpBalanceRaw b
    · have hstep : scanStep env w true (ps, db) b =
          (ps ++ [emitOf env b],
            (add_position db w b (lpUnits env b) env.tokenX env.tokenY
              POOL_ADDRESS).1) := by
        simp [scanStep, hb, hbnone]
      rw [List.foldl_cons, hstep, ih _ _ (List.nodup_cons.1 hnd).2 ?hrest]
      case hrest =>
        intro b' hb'
        rw [gpb_add_other db w b (lpUnits env b) env.tokenX env.tokenY w b'
          (fun hc => hbs (hc ▸ hb'))]
        exact hnone b' (List.mem_cons_of_mem b hb')
      rw [active_after_add, List.map_append]
      have : binHasBalance env b = true := decide_eq_true hb
      simp [List.filter_cons, this, List.append_assoc]
    · have hstep : scanStep env w true (ps, db) b = (ps, db) := by
        simp [scanStep, hb]
      rw [List.foldl_cons, hstep, ih _ _ (List.nodup_cons.1 hnd).2
        (fun b' hb' => hnone b' (List.mem_cons_of_mem b hb'))]
      have : binHasBalance env b = false := decide_eq_false hb
      simp [List.filter_cons, this]

lemma activeRowFor_cacheRowUpdate (env : Env) (w : String) (row : PosRecord)
    (h : activeRowFor w POOL_ADDRESS row = true) :
    activeRowFor w POOL_ADDRESS (cacheRowUpdate env row) =
      hasLiveBalance env row := by
  by_cases h1 : 0 < env.lpBalanceRaw row.binId
  · by_cases h2 : CACHE_EPS < |row.amount - lpUnits env row.binId| <;>
      simp only [cacheRowUpdate, h1, if_true, h2, if_false, hasLiveBalance] <;>
      simp only [activeRowFor, Bool.and_eq_true, beq_iff_eq] at h ⊢ <;>
      simp [h.1.1, h.1.2, h.2, h1]
  · simp only [cacheRowUpdate, h1, if_false, hasLiveBalance]
    simp only [activeRowFor]
    simp [h1]

lemma active_after_cache (env : Env) (db : DB) (w : String) (hwf : WF db) :
    get_active_positions
        ((resolveFromCache env (get_active_positions db w POOL_ADDRESS)
          db).2) w POOL_ADDRESS =
      ((get_active_positions db w POOL_ADDRESS).filter
        (hasLiveBalance env)).map (cacheRowUpdate env) := by
  rw [get_active_positions, cache_resolution_positions env db w hwf]
  rw [show get_active_positions db w POOL_ADDRESS =
    db.positions.filter (activeRowFor w POOL_ADDRESS) from rfl]
  generalize db.positions = rows
  induction rows with
  | nil => rfl
  | cons row rows ih =>
    by_cases hact : activeRowFor w POOL_ADDRESS row = true
    · by_cases hlive : hasLiveBalance env row = true
      · have hcru : activeRowFor w POOL_ADDRESS (cacheRowUpdate env row) =
            true := by
          rw [activeRowFor_cacheRowUpdate env w row hact, hlive]
        simp only [List.map_cons, List.filter_cons, hact, if_true, hcru,
          hlive]
        rw [ih]
      · have hlive' : hasLiveBalance env row = false := by simpa using hlive
        have hcru : activeRowFor w POOL_ADDRESS (cacheRowUpdate env row) =
            false := by
          rw [activeRowFor_cacheRowUpdate env w row hact, hlive']
        simp only [List.map_cons, List.filter_cons, hact, if_true, hcru,
          hlive', Bool.false_eq_true, if_false]
        exact ih
    · have hact' : activeRowFor w POOL_ADDRESS row = false := by
        simpa using hact
      simp only [List.map_cons, List.filter_cons, hact', Bool.false_eq_true,
        if_false]
      exact ih

lemma hasLive_eq_binHas (env : Env) (r : PosRecord) :
    hasLiveBalance env r = binHasBalance env r.binId := rfl

lemma get_all_no_cache (env : Env) (db : DB) (w : String) (sr : ℕ) :
    get_all_lp_balances env db w sr false = scanPositions env db w sr false := by
  simp [get_all_lp_balances]

lemma get_all_db_empty (env : Env) (db : DB) (w : String) (sr : ℕ)
    (h : get_active_positions db w POOL_ADDRESS = []) :
    get_all_lp_balances env db w sr true = scanPositions env db w sr true := by
  simp [get_all_lp_balances, h]

lemma get_all_cache_hit (env : Env) (db : DB) (w : String) (sr : ℕ)
    (h1 : get_active_positions db w POOL_ADDRESS ≠ [])
    (h2 : (resolveFromCache env (get_active_positions db w POOL_ADDRESS)
      db).1 ≠ []) :
    get_all_lp_balances env db w sr true =
      resolveFromCache env (get_active_positions db w POOL_ADDRESS) db := by
  simp [get_all_lp_balances, h1, h2]

lemma get_all_cache_miss (env : Env) (db : DB) (w : String) (sr : ℕ)
    (h1 : get_active_positions db w POOL_ADDRESS ≠ [])
    (h2 : (resolveFromCache env (get_active_positions db w POOL_ADDRESS)
      db).1 = []) :
    get_all_lp_balances env db w sr true =
      scanPositions env
        (resolveFromCache env (get_active_positions db w POOL_ADDRESS) db).2
        w sr true := by
  simp [get_all_lp_balances, h1, h2]

lemma resolve_after_scan (env : Env) (w : String) (sr : ℕ) (db2 : DB)
    (hempty : get_active_positions db2 w POOL_ADDRESS = []) :
    (get_all_lp_balances env (scanPositions env db2 w sr true).2 w sr
        true).1 = (scanPositions env db2 w sr true).1 := by
  have hfst : (scanPositions env db2 w sr true).1 =
      ((scannedBins env.activeId sr).filter (binHasBalance env)).map
        (emitOf env) := by
    rw [scanPositions, scan_foldl_fst]
    simp
  have hids : ((get_active_positions (scanPositions env db2 w sr true).2 w
      POOL_ADDRESS).map fun r => r.binId) =
      (scannedBins env.activeId sr).filter (binHasBalance env) := by
    rw [scanPositions, scan_foldl_activeIds env w _ _ _
      (scannedBins_nodup _ _) (fun b _ => gpb_none_of_no_active db2 w hempty b),
      hempty]
    simp
  by_cases hF : (scannedBins env.activeId sr).filter (binHasBalance env) = []
  · have hrecs2 : get_active_positions (scanPositions env db2 w sr true).2 w
        POOL_ADDRESS = [] := by
      have h := hids
      rw [hF] at h
      exact List.map_eq_nil_iff.1 h
    rw [get_all_db_empty env _ w sr hrecs2, hfst, scanPositions,
      scan_foldl_fst]
    simp
  · have hrecs2 : get_active_positions (scanPositions env db2 w sr true).2 w
        POOL_ADDRESS ≠ [] := by
      intro hc
      rw [hc] at hids
      exact hF (by simpa using hids.symm)
    have hall : ∀ r ∈ get_active_positions
        (scanPositions env db2 w sr true).2 w POOL_ADDRESS,
        hasLiveBalance env r = true := by
      intro r hr
      rw [hasLive_eq_binHas]
      have hm : r.binId ∈ (scannedBins env.activeId sr).filter
          (binHasBalance env) := by
        rw [← hids]
        exact List.mem_map.2 ⟨r, hr, rfl⟩
      exact List.of_mem_filter hm
    have hcached : (resolveFromCache env
        (get_active_positions (scanPositions env db2 w sr true).2 w
          POOL_ADDRESS) (scanPositions env db2 w sr true).2).1 =
        ((scannedBins env.activeId sr).filter (binHasBalance env)).map
          (emitOf env) := by
      rw [resolveFromCache, cache_foldl_fst, List.filter_eq_self.2 hall,
        ← hids, List.map_map]
      simp [Function.comp]
    have hne : (resolveFromCache env
        (get_active_positions (scanPositions env db2 w sr true).2 w
          POOL_ADDRESS) (scanPositions env db2 w sr true).2).1 ≠ [] := by
      rw [hcached]
      intro hc
      exact hF (List.map_eq_nil_iff.1 hc)
    rw [get_all_cache_hit env _ w sr hrecs2 hne, hcached, hfst]

/-- C8: position resolution is idempotent.  With a fixed chain state,
running `get_all_lp_balances` a second time on the store produced by the
first run returns the same position list as the first run, for either value
of the cache-preference flag. -/
theorem resolution_idempotent (env : Env) (db : DB) (w : String) (sr : ℕ)
    (u : Bool) (hwf : WF db) :
    (get_all_lp_balances env (get_all_lp_balances env db w sr u).2 w sr
        u).1 = (get_all_lp_balances env db w sr u).1 := by
  cases u with
  | false =>
    rw [get_all_no_cache, get_all_no_cache, scanPositions, scan_foldl_fst,
      scanPositions, scan_foldl_fst]
  | true =>
    by_cases hrecs : get_active_positions db w POOL_ADDRESS = []
    · rw [get_all_db_empty env db w sr hrecs]
      exact resolve_after_scan env w sr db hrecs
    · have hca := active_after_cache env db w hwf
      by_cases hc : (resolveFromCache env
          (get_active_positions db w POOL_ADDRESS) db).1 = []
      · have hfilter : (get_active_positions db w POOL_ADDRESS).filter
            (hasLiveBalance env) = [] := by
          have h := hc
          rw [resolveFromCache, cache_foldl_fst] at h
          simpa using h
        have hempty2 : get_active_positions (resolveFromCache env
            (get_active_positions db w POOL_ADDRESS) db).2 w
            POOL_ADDRESS = [] := by
          rw [hca, hfilter]
          rfl
        rw [get_all_cache_miss env db w sr hrecs hc]
        exact resolve_after_scan env w sr _ hempty2
      · have hfilter_ne : (get_active_positions db w POOL_ADDRESS).filter
            (hasLiveBalance env) ≠ [] := by
          intro hcc
          apply hc
          rw [resolveFromCache, cache_foldl_fst, hcc]
          simp
        have hrecs2_ne : get_active_positions (resolveFromCache env
            (get_active_positions db w POOL_ADDRESS) db).2 w
            POOL_ADDRESS ≠ [] := by
          rw [hca]
          intro hcc
          exact hfilter_ne (List.map_eq_nil_iff.1 hcc)
        have hall2 : ∀ r ∈ get_active_positions (resolveFromCache env
            (get_active_positions db w POOL_ADDRESS) db).2 w POOL_ADDRESS,
            hasLiveBalance env r = true := by
          intro r hr
          rw [hca] at hr
          obtain ⟨q, hq, rfl⟩ := List.mem_map.1 hr
          rw [hasLive_eq_binHas, cacheRowUpdate_binId]
          exact hasLive_eq_binHas env q ▸ List.of_mem_filter hq
        have hsecond : (resolveFromCache env
            (get_active_positions (resolveFromCache env
              (get_active_positions db w POOL_ADDRESS) db).2 w POOL_ADDRESS)
            (resolveFromCache env
              (get_active_positions db w POOL_ADDRESS) db).2).1 =
            (resolveFromCache env
              (get_active_positions db w POOL_ADDRESS) db).1 := by
          rw [resolveFromCache, cache_foldl_fst,
            List.filter_eq_self.2 hall2, hca,
            show (resolveFromCache env
              (get_active_positions db w POOL_ADDRESS) db).1 =
              ((get_active_positions db w POOL_ADDRESS).filter
                (hasLiveBalance env)).map (fun r => emitOf env r.binId) from
              cache_foldl_fst env _ [] db,
            List.map_map]
          refine (List.map_congr_left fun r hr => ?_).symm.symm
          simp [Function.comp, cacheRowUpdate_binId]
        have hsecond_ne : (resolveFromCache env
            (get_active_positions (resolveFromCache env
              (get_active_positions db w POOL_ADDRESS) db).2 w POOL_ADDRESS)
            (resolveFromCache env
              (get_active_positions db w POOL_ADDRESS) db).2).1 ≠ [] := by
          rw [hsecond]; exact hc
        rw [get_all_cache_hit env db w sr hrecs hc,
          get_all_cache_hit env _ w sr hrecs2_ne hsecond_ne]
        exact hsecond

/-- Witness for C8: resolving twice on `dbStale` under `envBin5` (positive
balance at bin 5) returns the same position list. -/
theorem resolution_idempotent_witness :
    WF dbStale ∧
    (get_all_lp_balances envBin5 (get_all_lp_balances envBin5 dbStale "W" 1
        true).2 "W" 1 true).1 =
      (get_all_lp_balances envBin5 dbStale "W" 1 true).1 :=
  ⟨by decide, resolution_idempotent envBin5 dbStale "W" 1 true (by decide)⟩

/-! ### Position Store uniqueness invariant: C9 -/

/-- The data-model invariant: for a given (wallet, pool, bin), at most one
positions row is active. -/
def UniqueActive (db : DB) : Prop :=
  db.positions.Pairwise fun a b =>
    ¬(a.active = true ∧ b.active = true ∧ a.wallet = b.wallet ∧
      a.pool = b.pool ∧ a.binId = b.binId)

instance (db : DB) : Decidable (UniqueActive db) := by
  unfold UniqueActive; infer_instance

/-- Combined store well-formedness: distinct rowids plus the uniqueness
invariant. -/
def StoreInv (db : DB) : Prop := WF db ∧ UniqueActive db

instance (db : DB) : Decidable (StoreInv db) := by
  unfold StoreInv; infer_instance

lemma updRow_id (pid : ℕ) (amt : ℚ) (act : Bool) (r : PosRecord) :
    (updRow pid amt act r).id = r.id := by
  unfold updRow; split <;> rfl

lemma updRow_wallet (pid : ℕ) (amt : ℚ) (act : Bool) (r : PosRecord) :
    (updRow pid amt act r).wallet = r.wallet := by
  unfold updRow; split <;> rfl

lemma updRow_pool (pid : ℕ) (amt : ℚ) (act : Bool) (r : PosRecord) :
    (updRow pid amt act r).pool = r.pool := by
  unfold updRow; split <;> rfl

lemma updRow_binId (pid : ℕ) (amt : ℚ) (act : Bool) (r : PosRecord) :
    (updRow pid amt act r).binId = r.binId := by
  unfold updRow; split <;> rfl

lemma wf_update (db : DB) (pid : ℕ) (amt : ℚ) (act : Bool) (h : WF db) :
    WF (update_position db pid amt act) := by
  constructor
  · show ((db.positions.map (updRow pid amt act)).map fun r => r.id).Nodup
    rw [List.map_map]
    have hmc : db.positions.map ((fun r => r.id) ∘ updRow pid amt act) =
        db.positions.map fun r => r.id := by
      refine List.map_congr_left fun r _ => ?_
      show (updRow pid amt act r).id = r.id
      exact updRow_id pid amt act r
    rw [hmc]
    exact h.1
  · intro r hr
    obtain ⟨r0, hr0, rfl⟩ := List.mem_map.1 hr
    show (updRow pid amt act r0).id < db.nextId
    rw [updRow_id]
    exact h.2 r0 hr0

lemma wf_add (db : DB) (w : String) (b : ℤ) (amt : ℚ) (tx ty pool : String)
    (h : WF db) : WF (add_position db w b amt tx ty pool).1 := by
  constructor
  · show ((db.positions ++
      [(⟨db.nextId, w, b, amt, tx, ty, pool, true⟩ : PosRecord)]).map
        fun r => r.id).Nodup
    rw [List.map_append, List.nodup_append]
    refine ⟨h.1, List.nodup_singleton _, ?_⟩
    intro a ha hb'
    rw [List.map_singleton, List.mem_singleton] at hb'
    obtain ⟨r0, hr0, rfl⟩ := List.mem_map.1 ha
    have := h.2 r0 hr0
    show False
    rw [show ((⟨db.nextId, w, b, amt, tx, ty, pool, true⟩ :
      PosRecord)).id = db.nextId from rfl] at hb'
    omega
  · intro r hr
    have hr' : r ∈ db.positions ++
        [(⟨db.nextId, w, b, amt, tx, ty, pool, true⟩ : PosRecord)] := hr
    rw [List.mem_append] at hr'
    show r.id < db.nextId + 1
    rcases hr' with hr' | hr'
    · have := h.2 r hr'
      omega
    · rw [List.mem_singleton] at hr'
      subst hr'
      exact Nat.lt_succ_self _

lemma wf_record (db : DB) (opType w : String) (binId : Option ℤ)
    (ax ay : Option ℚ) (tx ty : Option String) (pool : String)
    (notes : Option String) (h : WF db) :
    WF (record_operation db opType w binId ax ay tx ty pool notes) := h

lemma unique_update_false (db : DB) (pid : ℕ) (amt : ℚ)
    (h : UniqueActive db) : UniqueActive (update_position db pid amt false) := by
  unfold UniqueActive update_position at *
  rw [List.pairwise_map]
  refine h.imp_of_mem ?_
  intro a b _ _ hR hcon
  apply hR
  obtain ⟨h1, h2, h3, h4, h5⟩ := hcon
  have ha : updRow pid amt false a = a := by
    by_cases hid : a.id = pid
    · exfalso; revert h1; simp [updRow, hid]
    · simp [updRow, hid]
  have hb : updRow pid amt false b = b := by
    by_cases hid : b.id = pid
    · exfalso; revert h2; simp [updRow, hid]
    · simp [updRow, hid]
  rw [ha] at h1 h3 h4 h5
  rw [hb] at h2 h3 h4 h5
  exact ⟨h1, h2, h3, h4, h5⟩

lemma unique_update_true (db : DB) (pid : ℕ) (amt : ℚ)
    (hact : ∀ row ∈ db.positions, row.id = pid → row.active = true)
    (h : UniqueActive db) : UniqueActive (update_position db pid amt true) := by
  unfold UniqueActive update_position at *
  rw [List.pairwise_map]
  refine h.imp_of_mem ?_
  intro a b hma hmb hR hcon
  apply hR
  obtain ⟨h1, h2, h3, h4, h5⟩ := hcon
  rw [updRow_wallet, updRow_wallet] at h3
  rw [updRow_pool, updRow_pool] at h4
  rw [updRow_binId, updRow_binId] at h5
  refine ⟨?_, ?_, h3, h4, h5⟩
  · by_cases hid : a.id = pid
    · exact hact a hma hid
    · rwa [show updRow pid amt true a = a from by simp [updRow, hid]] at h1
  · by_cases hid : b.id = pid
    · exact hact b hmb hid
    · rwa [show updRow pid amt true b = b from by simp [updRow, hid]] at h2

lemma unique_add (db : DB) (w : String) (b : ℤ) (amt : ℚ) (tx ty : String)
    (hnone : get_position_by_bin db w b POOL_ADDRESS = none)
    (h : UniqueActive db) :
    UniqueActive (add_position db w b amt tx ty POOL_ADDRESS).1 := by
  unfold UniqueActive add_position at *
  rw [List.pairwise_append]
  refine ⟨h, List.pairwise_singleton _ _, ?_⟩
  intro a ha b' hb'
  rw [List.mem_singleton] at hb'
  subst hb'
  intro hcon
  obtain ⟨h1, _, h3, h4, h5⟩ := hcon
  have hrfb : rowForBin w b POOL_ADDRESS a = true := by
    simp only [rowForBin, Bool.and_eq_true, beq_iff_eq]
    exact ⟨⟨⟨h3, h5⟩, h4⟩, h1⟩
  have := (get_position_by_bin_none_iff db w b POOL_ADDRESS).1 hnone a ha
  exact this hrfb

lemma update_mem_of_ne (db : DB) (pid : ℕ) (amt : ℚ) (act : Bool)
    (x : PosRecord) (hx : x ∈ db.positions) (hne : x.id ≠ pid) :
    x ∈ (update_position db pid amt act).positions := by
  have hmem := List.mem_map_of_mem (updRow pid amt act) hx
  rwa [show updRow pid amt act x = x from by simp [updRow, hne]] at hmem

lemma cacheStep_db_cases (env : Env) (ps : List Position) (db : DB)
    (r : PosRecord) :
    (cacheStep env (ps, db) r).2 = db ∨
    (cacheStep env (ps, db) r).2 =
      update_position db r.id (lpUnits env r.binId) true ∨
    (cacheStep env (ps, db) r).2 = deactivate_position db r.id := by
  by_cases hb : 0 < env.lpBalanceRaw r.binId
  · by_cases hd : CACHE_EPS < |r.amount - lpUnits env r.binId|
    · right; left; simp [cacheStep, hb, hd]
    · left; simp [cacheStep, hb, hd]
  · right; right; simp [cacheStep, hb]

lemma storeinv_cache_fold (env : Env) :
    ∀ (recs : List PosRecord) (ps : List Position) (db : DB),
      ((recs.map fun r => r.id).Nodup) →
      (∀ r ∈ recs, r ∈ db.positions ∧ r.active = true) →
      StoreInv db → StoreInv (recs.foldl (cacheStep env) (ps, db)).2 := by
  intro recs
  induction recs with
  | nil => intro ps db _ _ h; exact h
  | cons r rs ih =>
    intro ps db hnd hmem hinv
    have hr := hmem r (List.mem_cons_self r rs)
    have hnd2 : (r.id ∉ rs.map fun q => q.id) ∧
        ((rs.map fun q => q.id)).Nodup := by
      simpa only [List.map_cons, List.nodup_cons] using hnd
    have hndr := hnd2.1
    have hnd' := hnd2.2
    have hinv1 : StoreInv (cacheStep env (ps, db) r).2 := by
      rcases cacheStep_db_cases env ps db r with hcase | hcase | hcase <;>
        rw [hcase]
      · exact hinv
      · refine ⟨wf_update db _ _ _ hinv.1, unique_update_true db _ _ ?_ hinv.2⟩
        intro row hrow hid
        have := wf_id_determines db hinv.1 r hr.1 row hrow hid
        rw [this]
        exact hr.2
      · exact ⟨wf_update db _ _ _ hinv.1, unique_update_false db _ _ hinv.2⟩
    have hmem1 : ∀ q ∈ rs, q ∈ (cacheStep env (ps, db) r).2.positions ∧
        q.active = true := by
      intro q hq
      have hqne : q.id ≠ r.id := by
        intro hc
        exact hndr (hc ▸ List.mem_map.2 ⟨q, hq, rfl⟩)
      have hq0 := hmem q (List.mem_cons_of_mem r hq)
      rcases cacheStep_db_cases env ps db r with hcase | hcase | hcase <;>
        rw [hcase]
      · exact hq0
      · exact ⟨update_mem_of_ne db _ _ _ q hq0.1 hqne, hq0.2⟩
      · exact ⟨update_mem_of_ne db _ _ _ q hq0.1 hqne, hq0.2⟩
    rw [List.foldl_cons, pair_eta (cacheStep env (ps, db) r)]
    exact ih _ _ hnd' hmem1 hinv1

lemma scanStep_db_cases (env : Env) (w : String) (u : Bool)
    (ps : List Position) (db : DB) (b : ℤ) :
    (scanStep env w u (ps, db) b).2 = db ∨
    ((scanStep env w u (ps, db) b).2 =
        (add_position db w b (lpUnits env b) env.tokenX env.tokenY
          POOL_ADDRESS).1 ∧
      get_position_by_bin db w b POOL_ADDRESS = none) := by
  by_cases hb : 0 < env.lpBalanceRaw b
  · by_cases hu : u = true
    · cases hg : get_position_by_bin db w b POOL_ADDRESS with
      | some p => left; simp [scanStep, hb, hu, hg]
      | none =>
        right
        refine ⟨?_, rfl⟩
        simp [scanStep, hb, hu, hg]
    · left; simp [scanStep, hb, hu]
  · left; simp [scanStep, hb]

lemma storeinv_scan_fold (env : Env) (w : String) (u : Bool) :
    ∀ (bins : List ℤ) (ps : List Position) (db : DB),
      StoreInv db → StoreInv (bins.foldl (scanStep env w u) (ps, db)).2 := by
  intro bins
  induction bins with
  | nil => intro ps db h; exact h
  | cons b bs ih =>
    intro ps db hinv
    have hinv1 : StoreInv (scanStep env w u (ps, db) b).2 := by
      rcases scanStep_db_cases env w u ps db b with hcase | ⟨hcase, hg⟩ <;>
        rw [hcase]
      · exact hinv
      · exact ⟨wf_add db _ _ _ _ _ _ hinv.1, unique_add db _ _ _ _ _ hg hinv.2⟩
    rw [List.foldl_cons, pair_eta (scanStep env w u (ps, db) b)]
    exact ih _ _ hinv1

lemma activeRowFor_active (w pool : String) (r : PosRecord)
    (h : activeRowFor w pool r = true) : r.active = true := by
  simp only [activeRowFor, Bool.and_eq_true] at h
  exact h.1.2

lemma storeinv_get_all (env : Env) (db : DB) (w : String) (sr : ℕ) (u : Bool)
    (h : StoreInv db) : StoreInv (get_all_lp_balances env db w sr u).2 := by
  have hcachefold : StoreInv (resolveFromCache env
      (get_active_positions db w POOL_ADDRESS) db).2 := by
    rw [resolveFromCache]
    refine storeinv_cache_fold env _ [] db (active_ids_nodup db w h.1) ?_ h
    intro r hr
    exact ⟨active_mem_positions db w r hr,
      activeRowFor_active w POOL_ADDRESS r (List.mem_filter.1 hr).2⟩
  cases u with
  | false =>
    rw [get_all_no_cache, scanPositions]
    exact storeinv_scan_fold env w false _ [] db h
  | true =>
    by_cases hrecs : get_active_positions db w POOL_ADDRESS = []
    · rw [get_all_db_empty env db w sr hrecs, scanPositions]
      exact storeinv_scan_fold env w true _ [] db h
    · by_cases hc : (resolveFromCache env
          (get_active_positions db w POOL_ADDRESS) db).1 = []
      · rw [get_all_cache_miss env db w sr hrecs hc, scanPositions]
        exact storeinv_scan_fold env w true _ [] _ hcachefold
      · rw [get_all_cache_hit env db w sr hrecs hc]
        exact hcachefold

lemma gpb_some_mem_active (db : DB) (w : String) (b : ℤ) (pool : String)
    (p : PosRecord) (h : get_position_by_bin db w b pool = some p) :
    p ∈ db.positions ∧ p.active = true := by
  rw [get_position_by_bin] at h
  obtain ⟨ys, hys⟩ := List.head?_eq_some_iff.1 h
  have hp : p ∈ db.positions.filter (rowForBin w b pool) := by
    rw [hys]; exact List.mem_cons_self p ys
  have hmf := List.mem_filter.1 hp
  refine ⟨hmf.1, ?_⟩
  have := hmf.2
  simp only [rowForBin, Bool.and_eq_true] at this
  exact this.2

lemma storeinv_record (db : DB) (opType w : String) (binId : Option ℤ)
    (ax ay : Option ℚ) (tx ty : Option String) (pool : String)
    (notes : Option String) (h : StoreInv db) :
    StoreInv (record_operation db opType w binId ax ay tx ty pool notes) := h

lemma storeinv_upsertPosition (env : Env) (db1 : DB) (w : String)
    (binId : ℤ) (h : StoreInv db1) :
    StoreInv (upsertPosition env db1 w binId) := by
  rw [upsertPosition]
  cases hg : get_position_by_bin db1 w binId POOL_ADDRESS with
  | some p =>
    have hp := gpb_some_mem_active db1 w binId POOL_ADDRESS p hg
    refine ⟨wf_update db1 _ _ _ h.1, unique_update_true db1 _ _ ?_ h.2⟩
    intro row hrow hid
    have heq := wf_id_determines db1 h.1 p hp.1 row hrow hid
    rw [heq]
    exact hp.2
  | none =>
    exact ⟨wf_add db1 _ _ _ _ _ _ h.1, unique_add db1 _ _ _ _ _ hg h.2⟩

lemma storeinv_add_liquidity (env : Env) (db : DB) (w : String) (binId : ℤ)
    (ax bx : ℚ) (h : StoreInv db) :
    StoreInv (add_liquidity env db w binId ax bx).2 := by
  rw [add_liquidity]
  by_cases h1 : 0 < ax ∧ env.approveWavaxOk = false
  · rw [if_pos h1]; exact h
  · rw [if_neg h1]
    by_cases h2 : 0 < bx ∧ env.approveBtcOk = false
    · rw [if_pos h2]; exact h
    · rw [if_neg h2]
      by_cases h3 : env.addTxOk binId = true
      · rw [if_pos h3]
        exact storeinv_upsertPosition env _ w binId h
      · rw [if_neg h3]; exact h

lemma storeinv_removeUpdate (db1 : DB) (w : String) (binId : ℤ)
    (postBalance : ℚ) (h : StoreInv db1) :
    StoreInv (removeUpdate db1 w binId postBalance) := by
  rw [removeUpdate]
  cases hg : get_position_by_bin db1 w binId POOL_ADDRESS with
  | some p =>
    dsimp only
    have hp := gpb_some_mem_active db1 w binId POOL_ADDRESS p hg
    by_cases h4 : postBalance ≤ 0
    · rw [if_pos h4]
      exact ⟨wf_update db1 _ _ _ h.1, unique_update_false db1 _ _ h.2⟩
    · rw [if_neg h4]
      refine ⟨wf_update db1 _ _ _ h.1, unique_update_true db1 _ _ ?_ h.2⟩
      intro row hrow hid
      have heq := wf_id_determines db1 h.1 p hp.1 row hrow hid
      rw [heq]
      exact hp.2
  | none => exact h

lemma storeinv_remove_liquidity (env : Env) (db : DB) (w : String)
    (binId : ℤ) (amount postBalance : ℚ) (h : StoreInv db) :
    StoreInv (remove_liquidity env db w binId amount postBalance).2 := by
  rw [remove_liquidity]
  by_cases h1 : amount ≤ 0 ∧ env.lpBalanceRaw binId = 0
  · rw [if_pos h1]; exact h
  · rw [if_neg h1]
    by_cases h2 : env.approveLpOk = false
    · rw [if_pos h2]; exact h
    · rw [if_neg h2]
      by_cases h3 : env.removeTxOk = true
      · rw [if_pos h3]
        exact storeinv_removeUpdate _ w binId postBalance h
      · rw [if_neg h3]; exact h

lemma storeinv_deactivateAll (w : String) :
    ∀ (posl : List Position) (db : DB), StoreInv db →
      StoreInv (deactivateAll w db posl) := by
  intro posl
  induction posl with
  | nil => intro db h; exact h
  | cons p ps ih =>
    intro db h
    show StoreInv ((p :: ps).foldl _ db)
    rw [List.foldl_cons]
    have hstep : StoreInv (match get_position_by_bin db w p.binId
        POOL_ADDRESS with
      | some q => deactivate_position db q.id
      | none => db) := by
      cases hg : get_position_by_bin db w p.binId POOL_ADDRESS with
      | some q =>
        exact ⟨wf_update db _ _ _ h.1, unique_update_false db _ _ h.2⟩
      | none => exact h
    exact ih _ hstep

lemma storeinv_remove_all (env : Env) (db : DB) (w : String) (sr : ℕ)
    (h : StoreInv db) : StoreInv (remove_all_liquidity env db w sr).2 := by
  simp only [remove_all_liquidity]
  have hres := storeinv_get_all env db w sr true h
  by_cases h1 : (get_all_lp_balances env db w sr true).1 = []
  · rw [if_pos h1]; exact hres
  · rw [if_neg h1]
    by_cases h2 : env.approveLpOk = false
    · rw [if_pos h2]; exact hres
    · rw [if_neg h2]
      by_cases h3 : env.removeTxOk = true
      · rw [if_pos h3]
        exact storeinv_deactivateAll w _ _
          (storeinv_record _ _ _ _ _ _ _ _ _ _ hres)
      · rw [if_neg h3]; exact hres

lemma storeinv_rebalanceAddPhase (ea eb : Env) (db : DB) (w : String)
    (A : ℤ) (h : StoreInv db) :
    StoreInv (rebalanceAddPhase ea eb db w A).2.1 := by
  simp only [rebalanceAddPhase]
  by_cases h1 : (1 : ℚ) / 100 < max 0 (ea.avaxBalance - AVAX_RESERVE)
  · rw [if_pos h1]
    by_cases h2 : (1 : ℚ) / 10000 < max 0 (eb.btcBalance - BTC_RESERVE)
    · rw [if_pos h2]
      exact storeinv_add_liquidity eb _ w _ _ _
        (storeinv_add_liquidity ea db w _ _ _ h)
    · rw [if_neg h2]
      exact storeinv_add_liquidity ea db w _ _ _ h
  · rw [if_neg h1]
    by_cases h2 : (1 : ℚ) / 10000 < max 0 (eb.btcBalance - BTC_RESERVE)
    · rw [if_pos h2]
      exact storeinv_add_liquidity eb db w _ _ _ h
    · rw [if_neg h2]
      exact h

lemma storeinv_rebalance (er ea eb : Env) (db : DB) (w : String) (A : ℤ)
    (h : StoreInv db) :
    StoreInv (rebalance_liquidity er ea eb db w A).2.1 := by
  simp only [rebalance_liquidity]
  have hrm := storeinv_remove_all er db w DEFAULT_BIN_SCAN_RANGE h
  by_cases h1 : (remove_all_liquidity er db w DEFAULT_BIN_SCAN_RANGE).1 = true
  · rw [if_pos h1]
    exact storeinv_rebalanceAddPhase ea eb _ w A hrm
  · rw [if_neg h1]
    exact hrm

/-- C9: every operation of the system (position resolution, add-liquidity,
remove-liquidity, remove-all, rebalance) preserves the Position Store
invariant that for a given (wallet, pool, bin) at most one row is active
(together with rowid well-formedness, which SQLite guarantees). -/
theorem store_invariant_preserved (db : DB) (h : StoreInv db) :
    (∀ (env : Env) (w : String) (sr : ℕ) (u : Bool),
      StoreInv (get_all_lp_balances env db w sr u).2) ∧
    (∀ (env : Env) (w : String) (b : ℤ) (ax bx : ℚ),
      StoreInv (add_liquidity env db w b ax bx).2) ∧
    (∀ (env : Env) (w : String) (b : ℤ) (amount postBalance : ℚ),
      StoreInv (remove_liquidity env db w b amount postBalance).2) ∧
    (∀ (env : Env) (w : String) (sr : ℕ),
      StoreInv (remove_all_liquidity env db w sr).2) ∧
    (∀ (er ea eb : Env) (w : String) (A : ℤ),
      StoreInv (rebalance_liquidity er ea eb db w A).2.1) :=
  ⟨fun env w sr u => storeinv_get_all env db w sr u h,
   fun env w b ax bx => storeinv_add_liquidity env db w b ax bx h,
   fun env w b amount postBalance =>
     storeinv_remove_liquidity env db w b amount postBalance h,
   fun env w sr => storeinv_remove_all env db w sr h,
   fun er ea eb w A => storeinv_rebalance er ea eb db w A h⟩

/-- Witness for C9: the invariant holds on `dbStale` and is preserved by a
rebalance under `envBin5`. -/
theorem store_invariant_preserved_witness :
    StoreInv dbStale ∧
    StoreInv (rebalance_liquidity envBin5 envBin5 envBin5 dbStale "W"
      5).2.1 :=
  ⟨by decide,
   (store_invariant_preserved dbStale (by decide)).2.2.2.2 envBin5 envBin5
     envBin5 "W" 5⟩

end LfjMm
